import Mathlib

/-!
# Verification of the actuarial present-value library (xlsmToPython)

Shallow embedding of the core computation modules:
`barwerte/sterbetafel.py`, `barwerte/basisfunktionen.py`,
`barwerte/finanzmathematik.py`, `barwerte/rentenbarwerte.py`,
`barwerte/leistungsbarwerte.py`, `old/rentenbarwerte_vectorized.py` and
`verlaufswerte.py`.

Machine floats are modelled by exact rationals (`ℚ`); the specification's
floating tolerances (1e-10 etc.) correspond to exact equality here.
Python loops over ranges become `List.range`/`Finset.range` folds and sums,
numpy `cumprod`-into-ones arrays become `List.scanl (· * ·) 1`, and code
that can raise is modelled with `Except`.

Point queries on the mortality table raise for ages below `min_alter`; the
pure vector pipeline is modelled with a total per-age lookup, and every
theorem that touches the table carries the validity hypotheses
(`min_alter ≤ age`, `age + duration ≤ max_alter`) under which the two
views coincide.
-/

/-- `MAX_ALTER` from `sterbetafel.py`: the global age ceiling (121). -/
def MAX_ALTER : ℕ := 121

/-- Python's `str.upper()` as used for the sex parameter: upper-case every
character (structural on the character list, so it evaluates in the kernel). -/
def pyUpper (s : String) : String := ⟨s.data.map Char.toUpper⟩

/-- The mortality table (`Sterbetafel` in `sterbetafel.py`): age bounds and
the two per-age death-probability columns `qx` (male) and `qy` (female).
The CSV loading is out of scope; the table is the resulting immutable data. -/
structure Sterbetafel where
  min_alter : ℕ
  max_alter : ℕ
  spalteQx : ℕ → ℚ
  spalteQy : ℕ → ℚ

namespace Sterbetafel

/-- The value `Sterbetafel.qx` returns for an in-range age: sex is upper-cased
and anything that is not the male category selects the female column
(`sex = sex.upper(); spalte = 'qx' if sex == 'M' else 'qy'`). -/
def qxWert (st : Sterbetafel) (alter : ℕ) (sex : String) : ℚ :=
  if pyUpper sex = "M" then st.spalteQx alter else st.spalteQy alter

/-- `Sterbetafel.qx` from `sterbetafel.py`: validates the age against
`[min_alter, max_alter]` (raising `ValueError` otherwise), then looks up the
column selected by the normalized sex. -/
def qx (st : Sterbetafel) (alter : ℕ) (sex : String) : Except String ℚ :=
  if alter < st.min_alter ∨ st.max_alter < alter then
    .error "ValueError: Alter ausserhalb des gueltigen Bereichs"
  else
    .ok (st.qxWert alter sex)

/-- `Sterbetafel.qx_vec`: the `qx` values for ages `alter .. alter+n-1`;
empty if `n ≤ 0` or `alter + n > max_alter`. -/
def qx_vec (st : Sterbetafel) (alter n : ℕ) (sex : String) : List ℚ :=
  if n = 0 ∨ st.max_alter < alter + n then []
  else (List.range n).map (fun i => st.qxWert (alter + i) sex)

/-- `Sterbetafel.px_vec`: elementwise `1 - qx_vec`. -/
def px_vec (st : Sterbetafel) (alter n : ℕ) (sex : String) : List ℚ :=
  (st.qx_vec alter n sex).map (fun q => 1 - q)

end Sterbetafel

/-- `diskont` from `basisfunktionen.py`: `v = 1/(1+i)` for `i > 0`, else `1`. -/
def diskont (zins : ℚ) : ℚ :=
  if 0 < zins then 1 / (1 + zins) else 1

/-- `abzugsglied` from `basisfunktionen.py` (first-order Woolhouse term):
`0` for `zw ≤ 0`, `zw = 1` or unsupported frequency, otherwise
`(1+i)/zw * Σ_{w<zw} (w/zw)/(1+(w/zw)i)`. -/
def abzugsglied (zw : ℕ) (zins : ℚ) : ℚ :=
  if zw = 0 ∨ zw = 1 then 0
  else if ¬(zw = 1 ∨ zw = 2 ∨ zw = 4 ∨ zw = 12) then 0
  else
    (((List.range zw).map
        (fun w => ((w : ℚ) / (zw : ℚ)) / (1 + ((w : ℚ) / (zw : ℚ)) * zins))).sum)
      * ((1 + zins) / (zw : ℚ))

/-- `abzugsglied` with Python division semantics made explicit: each loop
term divides by `1 + (w/zw)*zins`, which raises `ZeroDivisionError` when it
is zero (possible only for negative rates). Used by the `ag_k` model. -/
def abzugsgliedE (zw : ℕ) (zins : ℚ) : Except String ℚ :=
  if zw = 0 ∨ zw = 1 then .ok 0
  else if ¬(zw = 1 ∨ zw = 2 ∨ zw = 4 ∨ zw = 12) then .ok 0
  else if (List.range zw).any
      (fun w => 1 + ((w : ℚ) / (zw : ℚ)) * zins = 0) then
    .error "ZeroDivisionError"
  else
    .ok ((((List.range zw).map
        (fun w => ((w : ℚ) / (zw : ℚ)) / (1 + ((w : ℚ) / (zw : ℚ)) * zins))).sum)
      * ((1 + zins) / (zw : ℚ)))

/-- `npx_skalar` from `basisfunktionen.py`: `1` if `n ≤ 0` or
`alter + n ≥ MAX_ALTER`, else `np.prod(px_vec(alter, n, sex))` (note that an
empty `px_vec`, i.e. `alter + n > max_alter`, makes the product `1.0`). -/
def npx_skalar (alter n : ℕ) (sex : String) (st : Sterbetafel) : ℚ :=
  if n = 0 ∨ MAX_ALTER ≤ alter + n then 1
  else (st.px_vec alter n sex).prod

/-- Modelled from the spec: `nYearSurvivalProbability(age, n, sex, table)`,
the product of one-year survival probabilities from `age` to `age+n-1`,
returning `1.0` if `n ≤ 0` or `age + n` is at/beyond the table's boundary.
The source imports a function `npx_val` from `basisfunktionen.py` that is
missing from it; this models it with the same convention as its sibling
`npx_skalar`. -/
def npx_val (alter n : ℕ) (sex : String) (st : Sterbetafel) : ℚ :=
  if n = 0 ∨ MAX_ALTER ≤ alter + n then 1
  else (st.px_vec alter n sex).prod

/-- `tpx_matrix` from `basisfunktionen.py`: `[1]` if `max_t ≤ 0` or
`alter ≥ MAX_ALTER`; otherwise a ones-array of length `max_t + 1` whose tail
is `np.cumprod` of the `px` range, i.e. `List.scanl (· * ·) 1`. -/
def tpx_matrix (alter max_t : ℕ) (sex : String) (st : Sterbetafel) : List ℚ :=
  if max_t = 0 ∨ MAX_ALTER ≤ alter then [1]
  else List.scanl (· * ·) 1 (st.px_vec alter (min max_t (MAX_ALTER - alter)) sex)

/-- `ag_k` from `finanzmathematik.py`: present value of `g` guaranteed
annual payments at frequency `k`, with Python's division semantics made
explicit: `(1 - v^g)/(1 - v)` raises `ZeroDivisionError` when `1 - v = 0`
(i.e. for every non-positive rate other than the `zins = 0` early return). -/
def ag_k (g : ℕ) (zins : ℚ) (k : ℕ) : Except String ℚ :=
  if k = 0 ∨ g = 0 then .ok 0
  else if zins = 0 then .ok (g : ℚ)
  else
    let v := diskont zins
    match abzugsgliedE k zins with
    | .error e => .error e
    | .ok abzug =>
      if 1 - v = 0 then .error "ZeroDivisionError"
      else .ok ((1 - v ^ g) / (1 - v) - abzug * (1 - v ^ g))

/-- `ae_xn_k` from `rentenbarwerte.py` (projection engine, annuity series):
for each offset `j < n` it slices the shared `px` range, forms the local
survival vector via cumulative products, sums the discounted series, and for
`zw > 1` subtracts the Woolhouse correction weighted by
`1 - npx * v^restlaufzeit`. -/
def ae_xn_k (alter n : ℕ) (sex : String) (zins : ℚ) (zw : ℕ)
    (st : Sterbetafel) : List ℚ :=
  if n = 0 ∨ MAX_ALTER < alter + n then []
  else
    let n' := min (MAX_ALTER - alter) n
    let v := diskont zins
    let abzug := if 1 < zw then abzugsglied zw zins else 0
    let qx_all := st.qx_vec alter n' sex
    let px_all := qx_all.map (fun q => 1 - q)
    (List.range n').map (fun j =>
      let rest := n' - j
      let px_slice := (px_all.drop j).take rest
      let jpx := List.scanl (· * ·) 1 px_slice
      let bw := ∑ s ∈ Finset.range rest, jpx.getD s 0 * v ^ s
      if 1 < zw then bw - abzug * (1 - jpx.getD rest 0 * v ^ rest) else bw)

/-- `ae_xn_k_val` from `rentenbarwerte.py` (scalar temporary annuity-due):
a running-product loop over `t = 0 .. n-1` accumulating `tpx * v^t` (the
`tpx` update is skipped at the last step), then the Woolhouse correction
`abzug * (1 - npx * v^n)` is subtracted. -/
def ae_xn_k_val (alter n : ℕ) (sex : String) (zins : ℚ) (zw : ℕ)
    (st : Sterbetafel) : ℚ :=
  if zw = 0 ∨ n = 0 ∨ MAX_ALTER < alter + n then 0
  else
    let n' := min (MAX_ALTER - alter) n
    let v := diskont zins
    let qxv := st.qx_vec alter n' sex
    let bw := ((List.range n').foldl
      (fun s t =>
        (s.1 + s.2 * v ^ t,
         if t < n' - 1 then s.2 * (1 - qxv.getD t 0) else s.2))
      ((0 : ℚ), (1 : ℚ))).1
    bw - abzugsglied zw zins * (1 - npx_val alter n' sex st * v ^ n')

/-- `ae_x` from `rentenbarwerte.py`: its first line reads the name `n`,
which is not a parameter and is unbound, so every call raises `NameError`
before any computation happens. -/
def ae_x (alter : ℕ) (sex : String) (zins : ℚ) (st : Sterbetafel) :
    Except String (List ℚ) :=
  .error "NameError: name n is not defined"

/-- `ae_x_k` from `rentenbarwerte.py`. The Python body is
`return ae_x(...) - abzugsglied(zw, zins) if zw > 1 else 0.0`, which parses
as `(ae_x(...) - abzugsglied(zw, zins)) if (zw > 1) else 0.0`: for
`zw = 1` the function returns `0.0`, and for `zw > 1` it evaluates `ae_x`,
which always raises (the continuation below is therefore unreachable; had
`ae_x` returned, the Python would produce an ndarray despite the declared
float return type). -/
def ae_x_k (alter : ℕ) (sex : String) (zins : ℚ) (zw : ℕ)
    (st : Sterbetafel) : Except String ℚ :=
  if zw = 0 then .ok 0
  else if 1 < zw then
    match ae_x alter sex zins st with
    | .error e => .error e
    | .ok arr => .ok (arr.getD 0 0 - abzugsglied zw zins)
  else .ok 0

/-- Modelled from the spec: `wholeLifeAnnuityWithFrequency(age, sex, i, k)`
= `wholeLifeAnnuity` minus `fractionalPaymentAdjustment(k, i)`, where
`wholeLifeAnnuity = Σ_{t=0}^{ω-age-1} tPx·v^t` with `ω = MAX_ALTER`,
and `0` for age at or beyond `ω`. Reference value used to exhibit the
divergence of the source's `ae_x_k`. -/
def ae_x_k_spec (alter : ℕ) (sex : String) (zins : ℚ) (zw : ℕ)
    (st : Sterbetafel) : ℚ :=
  (if MAX_ALTER ≤ alter then 0
   else ∑ t ∈ Finset.range (MAX_ALTER - alter),
     (∏ i ∈ Finset.range t, (1 - st.qxWert (alter + i) sex)) * diskont zins ^ t)
    - abzugsglied zw zins

/-- `nAe_x_skalar` from `leistungsbarwerte.py` (temporary death benefit):
loop over `t = 1 .. n` accumulating `tpx * qx(alter+t-1) * v^t` with the
running survival product updated while `t < n`. Indexed here by
`t1 = t - 1`. -/
def nAe_x_skalar (alter n : ℕ) (sex : String) (zins : ℚ)
    (st : Sterbetafel) : ℚ :=
  if n = 0 ∨ MAX_ALTER < alter + n then 0
  else
    let n' := min (MAX_ALTER - alter) n
    let v := diskont zins
    ((List.range n').foldl
      (fun s t1 =>
        let q := st.qxWert (alter + t1) sex
        (s.1 + s.2 * q * v ^ (t1 + 1),
         if t1 + 1 < n' then s.2 * (1 - q) else s.2))
      ((0 : ℚ), (1 : ℚ))).1

/-- `nE_x_skalar` from `leistungsbarwerte.py` (pure endowment):
`1.0` if `n ≤ 0` or `alter + n > MAX_ALTER`, else `npx * v^n`. -/
def nE_x_skalar (alter n : ℕ) (sex : String) (zins : ℚ)
    (st : Sterbetafel) : ℚ :=
  if n = 0 ∨ MAX_ALTER < alter + n then 1
  else npx_skalar alter n sex st * diskont zins ^ n

/-- `Ae_xn_skalar` from `leistungsbarwerte.py` (endowment insurance):
death benefit plus pure endowment. -/
def Ae_xn_skalar (alter n : ℕ) (sex : String) (zins : ℚ)
    (st : Sterbetafel) : ℚ :=
  nAe_x_skalar alter n sex zins st + nE_x_skalar alter n sex zins st

/-- `ae_xn_verlauf_vec` from `old/rentenbarwerte_vectorized.py`: the annuity
series used by `berechne_reserve`; entry `t` sums the `tpx_matrix` values of
age `alter+t` over the remaining duration, with the Woolhouse correction for
`zw > 1` (the `npx` used there has the same body as `npx_skalar`). -/
def ae_xn_verlauf_vec (alter n : ℕ) (sex : String) (zins : ℚ) (zw : ℕ)
    (st : Sterbetafel) : List ℚ :=
  if n = 0 ∨ MAX_ALTER < alter + n then []
  else
    let n' := min (MAX_ALTER - alter) n
    let v := diskont zins
    (List.range n').map (fun t =>
      let rest := n' - t
      let tpx_t := tpx_matrix (alter + t) rest sex st
      let bw := ∑ s ∈ Finset.range rest, tpx_t.getD s 0 * v ^ s
      if 1 < zw then
        bw - abzugsglied zw zins * (1 - npx_skalar (alter + t) rest sex st * v ^ rest)
      else bw)

/-- Modelled from the spec: the death-benefit projection series
(`nAe_x_verlauf_vec`, called by `berechne_reserve` but missing from the
source): for each offset `m`, `temporaryDeathBenefit(age+m, n-m, sex, i)`;
empty for `n ≤ 0` or `age + n` beyond the ceiling (batch edge-case policy). -/
def nAe_x_verlauf_vec (alter n : ℕ) (sex : String) (zins : ℚ)
    (st : Sterbetafel) : List ℚ :=
  if n = 0 ∨ MAX_ALTER < alter + n then []
  else (List.range n).map (fun m => nAe_x_skalar (alter + m) (n - m) sex zins st)

/-- Modelled from the spec: the pure-endowment projection series
(`nE_x_verlauf_vec`, called by `berechne_reserve` but missing from the
source): for each offset `m`, `pureEndowment(age+m, n-m, sex, i)`; empty for
`n ≤ 0` or `age + n` beyond the ceiling (batch edge-case policy). -/
def nE_x_verlauf_vec (alter n : ℕ) (sex : String) (zins : ℚ)
    (st : Sterbetafel) : List ℚ :=
  if n = 0 ∨ MAX_ALTER < alter + n then []
  else (List.range n).map (fun m => nE_x_skalar (alter + m) (n - m) sex zins st)

/-- The dictionary returned by `berechne_reserve` in `verlaufswerte.py`. -/
structure ReserveErgebnis where
  reserve : List ℚ
  todesfallleistung : List ℚ
  erlebensfallleistung : List ℚ
  rentenbarwerte : List ℚ
  nettopraemie : ℚ

/-- `berechne_reserve` from `verlaufswerte.py`: benefit series of length `n`,
premium annuity series of length `t` zero-padded to length `n`, net premium
`(death[0] + endowment[0]) / annuity[0]` fixed at issue, and per-year reserve
`(death + endowment) - nettopraemie * annuity`. -/
def berechne_reserve (alter n t : ℕ) (sex : String) (zins : ℚ) (zw : ℕ)
    (st : Sterbetafel) : ReserveErgebnis :=
  let todesfall := nAe_x_verlauf_vec alter n sex zins st
  let erlebens := nE_x_verlauf_vec alter n sex zins st
  let renten_t := ae_xn_verlauf_vec alter t sex zins zw st
  let renten_n := renten_t ++ List.replicate (n - t) 0
  let netto := (todesfall.getD 0 0 + erlebens.getD 0 0) / renten_n.getD 0 0
  let reserve := (List.range n).map (fun m =>
    todesfall.getD m 0 + erlebens.getD m 0 - netto * renten_n.getD m 0)
  ⟨reserve, todesfall, erlebens, renten_n, netto⟩

/-- A concrete table used for witnesses and counterexamples: full age range
`0 .. 121` with constant one-year death probability `1/2` for both sexes. -/
def konstTafel : Sterbetafel :=
  ⟨0, 121, fun _ => 1 / 2, fun _ => 1 / 2⟩

/-! ## Auxiliary lemmas on lists, cumulative products and loops -/

lemma getD_map_range {α : Type} (f : ℕ → α) (d : α) {n i : ℕ} (h : i < n) :
    (((List.range n).map f)).getD i d = f i := by
  simp [List.getD_eq_getElem?_getD, List.getElem?_map, List.getElem?_range h]

lemma prod_map_range (f : ℕ → ℚ) (n : ℕ) :
    ((List.range n).map f).prod = ∏ i ∈ Finset.range n, f i := by
  induction n with
  | zero => simp
  | succ n ih =>
    rw [List.range_succ, List.map_append, List.prod_append, Finset.prod_range_succ, ih]
    simp

lemma drop_map_range {α : Type} (f : ℕ → α) {j n : ℕ} (h : j ≤ n) :
    ((List.range n).map f).drop j = (List.range (n - j)).map (fun i => f (j + i)) := by
  apply List.ext_getElem?
  intro i
  rw [List.getElem?_drop, List.getElem?_map, List.getElem?_map]
  by_cases h2 : i < n - j
  · rw [List.getElem?_range (by omega : j + i < n), List.getElem?_range h2]
    simp
  · rw [List.getElem?_eq_none (by simpa using by omega : (List.range n).length ≤ j + i),
      List.getElem?_eq_none (by simpa using by omega : (List.range (n - j)).length ≤ i)]
    simp

lemma scanl_mul_getD (l : List ℚ) :
    ∀ (b : ℚ) (s : ℕ), s ≤ l.length →
      (List.scanl (· * ·) b l).getD s 0 = b * ∏ i ∈ Finset.range s, l.getD i 0 := by
  induction l with
  | nil =>
    intro b s hs
    have hs0 : s = 0 := by simpa using hs
    subst hs0
    simp [List.scanl_nil]
  | cons a t ih =>
    intro b s hs
    match s with
    | 0 => simp [List.scanl_cons]
    | s + 1 =>
      rw [List.scanl_cons]
      have hst : s ≤ t.length := by simpa using hs
      have : (([b] ++ List.scanl (· * ·) (b * a) t)).getD (s + 1) 0
          = (List.scanl (· * ·) (b * a) t).getD s 0 := by
        simp [List.getD_eq_getElem?_getD]
      rw [this, ih (b * a) s hst, Finset.prod_range_succ']
      simp [List.getD_cons_succ, List.getD_cons_zero]
      ring

/-- The running-sum/running-product loop of `ae_xn_k_val` (and `ae_x_k_val`):
state after `j` iterations.  The survival product is not updated at the final
iteration (`t = n-1`), hence the `min j (n-1)` in the second component. -/
lemma annuSchleife (v : ℚ) (f : ℕ → ℚ) (n : ℕ) :
    ∀ j, j ≤ n →
      (List.range j).foldl
        (fun s t => (s.1 + s.2 * v ^ t, if t < n - 1 then s.2 * f t else s.2))
        ((0 : ℚ), (1 : ℚ))
      = (∑ t ∈ Finset.range j, (∏ i ∈ Finset.range t, f i) * v ^ t,
         ∏ i ∈ Finset.range (min j (n - 1)), f i) := by
  intro j
  induction j with
  | zero => intro _; simp
  | succ j ih =>
    intro hj
    rw [List.range_succ, List.foldl_append, ih (by omega)]
    simp only [List.foldl_cons, List.foldl_nil]
    have hjn : min j (n - 1) = j := by omega
    rw [hjn]
    refine Prod.ext ?_ ?_
    · simp [Finset.sum_range_succ]
    · simp only
      by_cases hc : j < n - 1
      · rw [if_pos hc]
        have : min (j + 1) (n - 1) = j + 1 := by omega
        rw [this, Finset.prod_range_succ]
      · rw [if_neg hc]
        have : min (j + 1) (n - 1) = j := by omega
        rw [this]

/-- The loop of `nAe_x_skalar`: state after `j` iterations (1-based payment
times `t = t1 + 1`; the survival product is not updated at the last step). -/
lemma todSchleife (v : ℚ) (q : ℕ → ℚ) (n : ℕ) :
    ∀ j, j ≤ n →
      (List.range j).foldl
        (fun s t1 => (s.1 + s.2 * q t1 * v ^ (t1 + 1),
            if t1 + 1 < n then s.2 * (1 - q t1) else s.2))
        ((0 : ℚ), (1 : ℚ))
      = (∑ t ∈ Finset.range j,
           (∏ i ∈ Finset.range t, (1 - q i)) * q t * v ^ (t + 1),
         ∏ i ∈ Finset.range (min j (n - 1)), (1 - q i)) := by
  intro j
  induction j with
  | zero => intro _; simp
  | succ j ih =>
    intro hj
    rw [List.range_succ, List.foldl_append, ih (by omega)]
    simp only [List.foldl_cons, List.foldl_nil]
    have hjn : min j (n - 1) = j := by omega
    rw [hjn]
    refine Prod.ext ?_ ?_
    · simp [Finset.sum_range_succ]
    · simp only
      by_cases hc : j + 1 < n
      · rw [if_pos hc]
        have : min (j + 1) (n - 1) = j + 1 := by omega
        rw [this, Finset.prod_range_succ]
      · rw [if_neg hc]
        have : min (j + 1) (n - 1) = j := by omega
        rw [this]

/-! ## Facts about the table range queries and survival products -/

lemma qx_vec_eq (st : Sterbetafel) {alter n : ℕ} (sex : String)
    (hn : n ≠ 0) (h : alter + n ≤ st.max_alter) :
    st.qx_vec alter n sex = (List.range n).map (fun i => st.qxWert (alter + i) sex) := by
  unfold Sterbetafel.qx_vec
  rw [if_neg (by omega)]

lemma px_vec_eq (st : Sterbetafel) {alter n : ℕ} (sex : String)
    (hn : n ≠ 0) (h : alter + n ≤ st.max_alter) :
    st.px_vec alter n sex
      = (List.range n).map (fun i => 1 - st.qxWert (alter + i) sex) := by
  unfold Sterbetafel.px_vec
  rw [qx_vec_eq st sex hn h, List.map_map]
  rfl

/-- Product form of `npx_skalar` on in-range arguments. -/
lemma npx_skalar_prod (st : Sterbetafel) {alter n : ℕ} (sex : String)
    (h1 : alter + n ≤ st.max_alter) (h2 : alter + n < 121) :
    npx_skalar alter n sex st
      = ∏ i ∈ Finset.range n, (1 - st.qxWert (alter + i) sex) := by
  unfold npx_skalar
  rcases Nat.eq_zero_or_pos n with hn | hn
  · subst hn; simp
  · rw [if_neg (by simp [MAX_ALTER]; omega), px_vec_eq st sex (by omega) h1,
      prod_map_range]

/-- `npx_val` is modelled with the same body as `npx_skalar`. -/
lemma npx_val_eq_npx_skalar (alter n : ℕ) (sex : String) (st : Sterbetafel) :
    npx_val alter n sex st = npx_skalar alter n sex st := rfl

/-- `abzugsglied` vanishes for annual payments. -/
lemma abzugsglied_eins (zins : ℚ) : abzugsglied 1 zins = 0 := by
  unfold abzugsglied
  rw [if_pos (Or.inr rfl)]

/-- The fallible Woolhouse term succeeds with 0 for annual payments. -/
lemma abzugsgliedE_eins (zins : ℚ) : abzugsgliedE 1 zins = .ok 0 := by
  unfold abzugsgliedE
  rw [if_pos (Or.inr rfl)]

/-- Closed form of each entry of `ae_xn_k` for annual payments (`zw = 1`). -/
lemma ae_xn_k_eintrag (st : Sterbetafel) (alter n j : ℕ) (sex : String) (zins : ℚ)
    (hn : n ≠ 0) (h2 : alter + n ≤ 121) (h3 : alter + n ≤ st.max_alter)
    (hj : j < n) :
    (ae_xn_k alter n sex zins 1 st).getD j 0
      = ∑ s ∈ Finset.range (n - j),
          (∏ i ∈ Finset.range s, (1 - st.qxWert (alter + (j + i)) sex))
            * diskont zins ^ s := by
  unfold ae_xn_k
  rw [if_neg (by simp [MAX_ALTER]; omega)]
  simp only
  have hmin : min (MAX_ALTER - alter) n = n := by
    simp [MAX_ALTER]; omega
  rw [hmin, qx_vec_eq st sex hn h3, List.map_map]
  have hpx : ((List.range n).map ((fun q => 1 - q) ∘ fun i => st.qxWert (alter + i) sex))
      = (List.range n).map (fun i => 1 - st.qxWert (alter + i) sex) := rfl
  rw [hpx, getD_map_range _ _ hj, if_neg (by omega : ¬ 1 < 1)]
  rw [drop_map_range _ (le_of_lt hj)]
  have htake : ((List.range (n - j)).map (fun i => 1 - st.qxWert (alter + (j + i)) sex)).take (n - j)
      = (List.range (n - j)).map (fun i => 1 - st.qxWert (alter + (j + i)) sex) := by
    apply List.take_of_length_le
    simp
  rw [htake]
  apply Finset.sum_congr rfl
  intro s hs
  have hsn : s < n - j := Finset.mem_range.mp hs
  rw [scanl_mul_getD _ 1 s (by simp; omega), one_mul]
  congr 1
  apply Finset.prod_congr rfl
  intro i hi
  have hin : i < n - j := by
    have := Finset.mem_range.mp hi
    omega
  rw [getD_map_range _ _ hin]

/-- Closed form of `ae_xn_k_val` for annual payments (`zw = 1`). -/
lemma ae_xn_k_val_eq (st : Sterbetafel) (alter n : ℕ) (sex : String) (zins : ℚ)
    (hn : n ≠ 0) (h2 : alter + n ≤ 121) (h3 : alter + n ≤ st.max_alter) :
    ae_xn_k_val alter n sex zins 1 st
      = ∑ t ∈ Finset.range n,
          (∏ i ∈ Finset.range t, (1 - st.qxWert (alter + i) sex))
            * diskont zins ^ t := by
  unfold ae_xn_k_val
  rw [if_neg (by simp [MAX_ALTER]; omega)]
  simp only
  have hmin : min (MAX_ALTER - alter) n = n := by
    simp [MAX_ALTER]; omega
  rw [hmin, qx_vec_eq st sex hn h3]
  have hfold := annuSchleife (diskont zins)
    (fun t => 1 - ((List.range n).map (fun i => st.qxWert (alter + i) sex)).getD t 0)
    n n le_rfl
  rw [congrArg Prod.fst hfold, abzugsglied_eins, zero_mul, sub_zero]
  dsimp only
  apply Finset.sum_congr rfl
  intro t ht
  congr 1
  apply Finset.prod_congr rfl
  intro i hi
  have hin : i < n := by
    have h1 := Finset.mem_range.mp ht
    have h2 := Finset.mem_range.mp hi
    omega
  rw [getD_map_range _ _ hin]

/-- Closed form of `nAe_x_skalar` for contracts ending at or below the
ceiling. -/
lemma nAe_x_skalar_eq (st : Sterbetafel) (alter n : ℕ) (sex : String) (zins : ℚ)
    (h2 : alter + n ≤ 121) :
    nAe_x_skalar alter n sex zins st
      = ∑ t ∈ Finset.range n,
          (∏ i ∈ Finset.range t, (1 - st.qxWert (alter + i) sex))
            * st.qxWert (alter + t) sex * diskont zins ^ (t + 1) := by
  unfold nAe_x_skalar
  rcases Nat.eq_zero_or_pos n with hn | hn
  · subst hn; simp
  · rw [if_neg (by simp [MAX_ALTER]; omega)]
    simp only
    have hmin : min (MAX_ALTER - alter) n = n := by
      simp [MAX_ALTER]; omega
    rw [hmin]
    have hfold := todSchleife (diskont zins)
      (fun t1 => st.qxWert (alter + t1) sex) n n le_rfl
    rw [congrArg Prod.fst hfold]

/-- Closed form of `nE_x_skalar` strictly below the ceiling. -/
lemma nE_x_skalar_eq (st : Sterbetafel) (alter n : ℕ) (sex : String) (zins : ℚ)
    (h2 : alter + n < 121) (h3 : alter + n ≤ st.max_alter) :
    nE_x_skalar alter n sex zins st
      = (∏ i ∈ Finset.range n, (1 - st.qxWert (alter + i) sex))
          * diskont zins ^ n := by
  unfold nE_x_skalar
  rcases Nat.eq_zero_or_pos n with hn | hn
  · subst hn; simp
  · rw [if_neg (by simp [MAX_ALTER]; omega), npx_skalar_prod st sex h3 h2]

/-- The telescoping identity behind the endowment-insurance relation: for
any discount factor `v` and any per-year death probabilities `q`,
`Σ P_t·q_t·v^(t+1) + P_n·v^n = 1 - (1-v)·Σ P_t·v^t` with
`P_t = Π_{i<t}(1-q_i)`. -/
lemma endowment_algebra (v : ℚ) (q : ℕ → ℚ) (n : ℕ) :
    (∑ t ∈ Finset.range n,
        (∏ i ∈ Finset.range t, (1 - q i)) * q t * v ^ (t + 1))
      + (∏ i ∈ Finset.range n, (1 - q i)) * v ^ n
    = 1 - (1 - v) * ∑ t ∈ Finset.range n,
        (∏ i ∈ Finset.range t, (1 - q i)) * v ^ t := by
  induction n with
  | zero => simp
  | succ n ih =>
    rw [Finset.sum_range_succ, Finset.prod_range_succ,
      Finset.sum_range_succ (f := fun t => (∏ i ∈ Finset.range t, (1 - q i)) * v ^ t)]
    have expand : ((∑ t ∈ Finset.range n,
          (∏ i ∈ Finset.range t, (1 - q i)) * q t * v ^ (t + 1))
        + (∏ i ∈ Finset.range n, (1 - q i)) * v ^ n)
        + ((∏ i ∈ Finset.range n, (1 - q i)) * q n * v ^ (n + 1)
            + (∏ i ∈ Finset.range n, (1 - q i)) * (1 - q n) * v ^ (n + 1)
            - (∏ i ∈ Finset.range n, (1 - q i)) * v ^ n)
        = (∑ t ∈ Finset.range n,
            (∏ i ∈ Finset.range t, (1 - q i)) * q t * v ^ (t + 1))
          + (∏ i ∈ Finset.range n, (1 - q i)) * q n * v ^ (n + 1)
          + (∏ i ∈ Finset.range n, (1 - q i)) * (1 - q n) * v ^ (n + 1) := by
      ring
    calc (∑ t ∈ Finset.range n,
            (∏ i ∈ Finset.range t, (1 - q i)) * q t * v ^ (t + 1))
          + (∏ i ∈ Finset.range n, (1 - q i)) * q n * v ^ (n + 1)
          + (∏ i ∈ Finset.range n, (1 - q i)) * (1 - q n) * v ^ (n + 1)
        = (1 - (1 - v) * ∑ t ∈ Finset.range n,
            (∏ i ∈ Finset.range t, (1 - q i)) * v ^ t)
          + ((∏ i ∈ Finset.range n, (1 - q i)) * q n * v ^ (n + 1)
              + (∏ i ∈ Finset.range n, (1 - q i)) * (1 - q n) * v ^ (n + 1)
              - (∏ i ∈ Finset.range n, (1 - q i)) * v ^ n) := by
          rw [← expand, ih]
      _ = 1 - (1 - v) * ((∑ t ∈ Finset.range n,
            (∏ i ∈ Finset.range t, (1 - q i)) * v ^ t)
            + (∏ i ∈ Finset.range n, (1 - q i)) * v ^ n) := by
          ring

/-- On the constant table every death probability reads `1/2`, for either
sex branch. -/
lemma konstTafel_qxWert (a : ℕ) (sex : String) :
    konstTafel.qxWert a sex = 1 / 2 := by
  unfold Sterbetafel.qxWert konstTafel
  split <;> rfl

/-! ## Claim theorems -/

/-- C1: Projection/scalar equivalence.  For the fixed contract age 40,
n = 20, sex 'M', i = 0.0175, k = 1, the projection engine `ae_xn_k` returns
a series of length 20 whose entry `m` (for every m = 0..19) equals the
scalar temporary annuity `ae_xn_k_val(40+m, 20-m, 'M', 0.0175, 1)` computed
independently from the table (exactly, hence within 1e-10). -/
theorem projektion_skalar_aequivalenz (st : Sterbetafel) (m : ℕ)
    (h0 : st.min_alter ≤ 40) (h1 : 60 ≤ st.max_alter) (hm : m < 20) :
    (ae_xn_k 40 20 "M" (7 / 400) 1 st).length = 20
    ∧ (ae_xn_k 40 20 "M" (7 / 400) 1 st).getD m 0
        = ae_xn_k_val (40 + m) (20 - m) "M" (7 / 400) 1 st := by
  constructor
  · unfold ae_xn_k
    rw [if_neg (by decide)]
    simp [MAX_ALTER]
  · rw [ae_xn_k_eintrag st 40 20 m "M" (7 / 400) (by omega) (by omega)
        (by omega) hm,
      ae_xn_k_val_eq st (40 + m) (20 - m) "M" (7 / 400) (by omega) (by omega)
        (by omega)]
    apply Finset.sum_congr rfl
    intro s _
    congr 1
    apply Finset.prod_congr rfl
    intro i _
    congr 2
    omega

/-- C1 witness at the constant table and offset m = 5. -/
theorem projektion_skalar_aequivalenz_zeuge :
    konstTafel.min_alter ≤ 40 ∧ 60 ≤ konstTafel.max_alter ∧ 5 < 20
    ∧ ((ae_xn_k 40 20 "M" (7 / 400) 1 konstTafel).length = 20
        ∧ (ae_xn_k 40 20 "M" (7 / 400) 1 konstTafel).getD 5 0
            = ae_xn_k_val (40 + 5) (20 - 5) "M" (7 / 400) 1 konstTafel) :=
  ⟨by decide, by decide, by decide,
    projektion_skalar_aequivalenz konstTafel 5 (by decide) (by decide) (by decide)⟩

/-- C2 counterexample: at age 120, n = 1 (so age + n = 121, i.e. the contract
ends exactly at the table ceiling — a valid contract, `age + n` does not
exceed the ceiling), the endowment identity fails, because `npx_skalar`
returns 1 at the boundary while the death-benefit loop uses the true
mortality: left side 600/407, right side 400/407. -/
theorem endowment_identitaet_gegenbeispiel :
    konstTafel.min_alter ≤ 120 ∧ 0 < 1 ∧ 120 + 1 ≤ konstTafel.max_alter
    ∧ 120 + 1 ≤ MAX_ALTER
    ∧ Ae_xn_skalar 120 1 "M" (7 / 400) konstTafel
        ≠ 1 - (1 - diskont (7 / 400)) * ae_xn_k_val 120 1 "M" (7 / 400) 1 konstTafel := by
  refine ⟨by decide, by decide, by decide, by decide, ?_⟩
  have hv : diskont (7 / 400) = 400 / 407 := by norm_num [diskont]
  have hA : Ae_xn_skalar 120 1 "M" (7 / 400) konstTafel = 600 / 407 := by
    unfold Ae_xn_skalar
    have hE : nE_x_skalar 120 1 "M" (7 / 400) konstTafel = 400 / 407 := by
      unfold nE_x_skalar
      rw [if_neg (by norm_num [MAX_ALTER])]
      have hnpx : npx_skalar 120 1 "M" konstTafel = 1 := rfl
      rw [hnpx, hv]
      norm_num
    rw [nAe_x_skalar_eq konstTafel 120 1 "M" (7 / 400) (by norm_num), hE,
      Finset.sum_range_one, Finset.prod_range_zero, konstTafel_qxWert, hv]
    norm_num
  have hR : ae_xn_k_val 120 1 "M" (7 / 400) 1 konstTafel = 1 := by
    rw [ae_xn_k_val_eq konstTafel 120 1 "M" (7 / 400) (by norm_num) (by norm_num)
        (by decide),
      Finset.sum_range_one, Finset.prod_range_zero]
    norm_num
  rw [hA, hR, hv]
  norm_num

/-- C2 (amended): for every valid contract ending strictly below the table
ceiling (`age + n < 121`), the endowment-insurance present value satisfies
`Ae_xn_skalar = 1 - (1 - v) * ae_xn_k_val(..., k = 1)` exactly. -/
theorem endowment_identitaet (st : Sterbetafel) (alter n : ℕ) (sex : String)
    (zins : ℚ) (h0 : st.min_alter ≤ alter) (h1 : 0 < n)
    (h2 : alter + n < 121) (h3 : alter + n ≤ st.max_alter) :
    Ae_xn_skalar alter n sex zins st
      = 1 - (1 - diskont zins) * ae_xn_k_val alter n sex zins 1 st := by
  unfold Ae_xn_skalar
  rw [nAe_x_skalar_eq st alter n sex zins (by omega),
    nE_x_skalar_eq st alter n sex zins h2 h3,
    ae_xn_k_val_eq st alter n sex zins (by omega) (by omega) h3]
  exact endowment_algebra (diskont zins) (fun i => st.qxWert (alter + i) sex) n

/-- C2 witness at the constant table, age 40, n = 5. -/
theorem endowment_identitaet_zeuge :
    konstTafel.min_alter ≤ 40 ∧ 0 < 5 ∧ 40 + 5 < 121
    ∧ 40 + 5 ≤ konstTafel.max_alter
    ∧ Ae_xn_skalar 40 5 "M" (7 / 400) konstTafel
        = 1 - (1 - diskont (7 / 400)) * ae_xn_k_val 40 5 "M" (7 / 400) 1 konstTafel :=
  ⟨by decide, by decide, by decide, by decide,
    endowment_identitaet konstTafel 40 5 "M" (7 / 400) (by decide) (by decide)
      (by decide) (by decide)⟩

/-- C3 counterexample: age 119, n1 = n2 = 1: the split interval ends exactly
at the ceiling (119 + 1 + 1 = 121 ≤ max_alter, within the remaining table
range), yet `npx_skalar 119 2 = 1` (boundary convention) while
`npx_skalar 119 1 * npx_skalar 120 1 = 1/2`. -/
theorem teleskop_identitaet_gegenbeispiel :
    konstTafel.min_alter ≤ 119 ∧ 119 + 1 + 1 ≤ konstTafel.max_alter
    ∧ npx_skalar 119 (1 + 1) "M" konstTafel
        ≠ npx_skalar 119 1 "M" konstTafel * npx_skalar (119 + 1) 1 "M" konstTafel := by
  refine ⟨by decide, by decide, ?_⟩
  have h1 : npx_skalar 119 (1 + 1) "M" konstTafel = 1 := rfl
  have h2 : npx_skalar 119 1 "M" konstTafel = 1 / 2 := by
    rw [@npx_skalar_prod konstTafel 119 1 "M" (by decide) (by decide),
      Finset.prod_range_one, konstTafel_qxWert]
    norm_num
  have h3 : npx_skalar (119 + 1) 1 "M" konstTafel = 1 := rfl
  rw [h1, h2, h3]
  norm_num

/-- C3 (amended): the survival probability telescopes over split intervals
for every valid age and n1, n2 ≥ 0 whose total stays strictly below the
ceiling (`age + n1 + n2 < 121`) and within the table. -/
theorem teleskop_identitaet (st : Sterbetafel) (alter n1 n2 : ℕ) (sex : String)
    (h0 : st.min_alter ≤ alter) (h2 : alter + n1 + n2 < 121)
    (h3 : alter + n1 + n2 ≤ st.max_alter) :
    npx_skalar alter (n1 + n2) sex st
      = npx_skalar alter n1 sex st * npx_skalar (alter + n1) n2 sex st := by
  rw [npx_skalar_prod st sex (show alter + (n1 + n2) ≤ st.max_alter by omega)
      (by omega),
    npx_skalar_prod st sex (show alter + n1 ≤ st.max_alter by omega) (by omega),
    npx_skalar_prod st sex (show alter + n1 + n2 ≤ st.max_alter by omega)
      (by omega),
    Finset.prod_range_add]
  congr 1
  apply Finset.prod_congr rfl
  intro i _
  congr 2
  omega

/-- C3 witness at the constant table: age 40, n1 = 2, n2 = 3. -/
theorem teleskop_identitaet_zeuge :
    konstTafel.min_alter ≤ 40 ∧ 40 + 2 + 3 < 121
    ∧ 40 + 2 + 3 ≤ konstTafel.max_alter
    ∧ npx_skalar 40 (2 + 3) "M" konstTafel
        = npx_skalar 40 2 "M" konstTafel * npx_skalar (40 + 2) 3 "M" konstTafel :=
  ⟨by decide, by decide, by decide,
    teleskop_identitaet konstTafel 40 2 3 "M" (by decide) (by decide) (by decide)⟩

/-- C10: the scalar pure endowment `nE_x_skalar` returns exactly 1 whenever
`n = 0` (n ≤ 0) or `age + n` is strictly greater than the ceiling
`MAX_ALTER = 121` — an out-of-range pure endowment is silently valued as a
certain immediate benefit of 1 instead of raising or returning 0. -/
theorem nE_x_randkonvention (st : Sterbetafel) (alter n : ℕ) (sex : String)
    (zins : ℚ) (h : n = 0 ∨ 121 < alter + n) :
    nE_x_skalar alter n sex zins st = 1 := by
  unfold nE_x_skalar
  rw [if_pos (by simpa [MAX_ALTER] using h)]

/-- C10 witness: age 100, n = 50 (100 + 50 > 121). -/
theorem nE_x_randkonvention_zeuge :
    (121 < 100 + 50) ∧ nE_x_skalar 100 50 "M" (7 / 400) konstTafel = 1 :=
  ⟨by decide, nE_x_randkonvention konstTafel 100 50 "M" (7 / 400) (Or.inr (by decide))⟩

/-- C4 counterexample: with the full table (max_alter = 121), age 120 and
maxT = 1 are within the table, yet the survival-matrix entry at t = 1 is the
true one-year survival 1/2 while `npx_skalar 120 1` is 1 (its boundary
convention fires at 120 + 1 = 121), so the claimed identification of entry t
with `npx_skalar(age, t)` fails. -/
theorem tpx_matrix_gegenbeispiel :
    0 < 1 ∧ konstTafel.min_alter ≤ 120 ∧ 120 + 1 ≤ konstTafel.max_alter
    ∧ (tpx_matrix 120 1 "M" konstTafel).getD 1 0 ≠ npx_skalar 120 1 "M" konstTafel := by
  refine ⟨by decide, by decide, by decide, ?_⟩
  have hnpx : npx_skalar 120 1 "M" konstTafel = 1 := rfl
  have hpx : konstTafel.px_vec 120 (min 1 (MAX_ALTER - 120)) "M"
      = [1 - konstTafel.qxWert (120 + 0) "M"] := by
    have hm : min 1 (MAX_ALTER - 120) = 1 := by decide
    rw [hm, px_vec_eq konstTafel "M" (by decide) (by decide)]
    rfl
  have hmat : (tpx_matrix 120 1 "M" konstTafel).getD 1 0 = 1 / 2 := by
    unfold tpx_matrix
    rw [if_neg (by decide), hpx, konstTafel_qxWert]
    norm_num [List.scanl]
  rw [hmat, hnpx]
  norm_num

/-- C4 (amended): for every table and valid age/maxT (age + maxT within the
table), `tpx_matrix` has length maxT + 1, entry 0 is exactly 1, entry t for
1 ≤ t ≤ maxT is the product of the one-year survival probabilities at ages
age..age+t-1, and that entry coincides with `npx_skalar(age, t)` whenever
additionally age + t < 121; moreover `npx_skalar` returns 1 when n = 0 or
age + n is at or beyond the ceiling. -/
theorem tpx_matrix_korrektheit (st : Sterbetafel) (alter max_t : ℕ) (sex : String)
    (h1 : 0 < max_t) (h0 : st.min_alter ≤ alter)
    (h3 : alter + max_t ≤ st.max_alter) (h4 : st.max_alter ≤ 121) :
    (tpx_matrix alter max_t sex st).length = max_t + 1
    ∧ (tpx_matrix alter max_t sex st).getD 0 0 = 1
    ∧ (∀ t, 1 ≤ t → t ≤ max_t →
        (tpx_matrix alter max_t sex st).getD t 0
          = ∏ i ∈ Finset.range t, (1 - st.qxWert (alter + i) sex))
    ∧ (∀ t, 1 ≤ t → t ≤ max_t → alter + t < 121 →
        (tpx_matrix alter max_t sex st).getD t 0 = npx_skalar alter t sex st)
    ∧ (∀ a n, n = 0 ∨ 121 ≤ a + n → npx_skalar a n sex st = 1) := by
  have hmat : tpx_matrix alter max_t sex st
      = List.scanl (· * ·) 1
          ((List.range max_t).map (fun i => 1 - st.qxWert (alter + i) sex)) := by
    unfold tpx_matrix
    rw [if_neg (by simp [MAX_ALTER]; omega)]
    have hmin : min max_t (MAX_ALTER - alter) = max_t := by
      simp [MAX_ALTER]; omega
    rw [hmin, px_vec_eq st sex (by omega) (by omega)]
  have hprodform : ∀ t, t ≤ max_t →
      (tpx_matrix alter max_t sex st).getD t 0
        = ∏ i ∈ Finset.range t, (1 - st.qxWert (alter + i) sex) := by
    intro t ht
    rw [hmat, scanl_mul_getD _ 1 t (by simp; omega), one_mul]
    apply Finset.prod_congr rfl
    intro i hi
    have hit : i < max_t := by
      have := Finset.mem_range.mp hi
      omega
    rw [getD_map_range _ _ hit]
  refine ⟨?_, ?_, ?_, ?_, ?_⟩
  · rw [hmat, List.length_scanl]
    simp
  · rw [hprodform 0 (by omega)]
    simp
  · intro t _ ht2
    exact hprodform t ht2
  · intro t _ ht2 hlt
    rw [hprodform t ht2, npx_skalar_prod st sex (by omega) hlt]
  · intro a n h
    unfold npx_skalar
    rw [if_pos (by simpa [MAX_ALTER] using h)]

/-- C4 witness: constant table, age 40, maxT = 5, entry t = 3. -/
theorem tpx_matrix_korrektheit_zeuge :
    0 < 5 ∧ konstTafel.min_alter ≤ 40 ∧ 40 + 5 ≤ konstTafel.max_alter
    ∧ konstTafel.max_alter ≤ 121
    ∧ (tpx_matrix 40 5 "M" konstTafel).getD 3 0 = npx_skalar 40 3 "M" konstTafel :=
  ⟨by decide, by decide, by decide, by decide,
    (tpx_matrix_korrektheit konstTafel 40 5 "M" (by decide) (by decide) (by decide)
      (by decide)).2.2.2.1 3 (by decide) (by decide) (by decide)⟩

/-- C5 (code bug): at the failing input age 120, sex 'M', i = 0.0175:
for k = 1 the source's `ae_x_k` returns 0.0 (the conditional-expression
precedence bug `return a - b if zw > 1 else 0.0`), and for k = 2 it raises
`NameError` (its callee `ae_x` reads the unbound name `n`); the spec value
`wholeLifeAnnuityWithFrequency(120, 'M', 0.0175, 1)` is 1, not 0. -/
theorem ae_x_k_code_fehler :
    ae_x_k 120 "M" (7 / 400) 1 konstTafel = .ok 0
    ∧ ae_x_k 120 "M" (7 / 400) 2 konstTafel
        = .error "NameError: name n is not defined"
    ∧ ae_x_k_spec 120 "M" (7 / 400) 1 konstTafel = 1 := by
  refine ⟨rfl, rfl, ?_⟩
  unfold ae_x_k_spec
  rw [if_neg (by decide), abzugsglied_eins]
  have h121 : MAX_ALTER - 120 = 1 := by decide
  rw [h121, Finset.sum_range_one, Finset.prod_range_zero]
  norm_num

/-- Length of the premium annuity series used by the reserve projection. -/
lemma ae_xn_verlauf_vec_laenge (st : Sterbetafel) (alter t : ℕ) (sex : String)
    (zins : ℚ) (zw : ℕ) (ht : t ≠ 0) (h2 : alter + t ≤ 121) :
    (ae_xn_verlauf_vec alter t sex zins zw st).length = t := by
  unfold ae_xn_verlauf_vec
  rw [if_neg (by simp [MAX_ALTER]; omega)]
  simp [MAX_ALTER]
  omega

/-- Reading past the real entries of a zero-padded list yields 0. -/
lemma getD_append_replicate_zero (l : List ℚ) (k i : ℕ) (h : l.length ≤ i) :
    (l ++ List.replicate k (0 : ℚ)).getD i 0 = 0 := by
  rw [List.getD_eq_getElem?_getD, List.getElem?_append_right h,
    List.getElem?_replicate]
  split <;> simp

/-- C6: Reserve projection.  For a contract (age, n, premium duration t ≤ n),
every reserve entry m < n satisfies
`reserve[m] = (deathBenefit[m] + pureEndowment[m]) - netPremiumRate * annuity[m]`,
where the annuity factor is the premium-annuity series entry for m < t and 0
for m ≥ t, and the net premium rate `(deathBenefit[0] + pureEndowment[0]) /
annuity[0]` is computed once at offset 0 and held fixed. -/
theorem reserve_projektion (st : Sterbetafel) (alter n t : ℕ) (sex : String)
    (zins : ℚ) (zw : ℕ) (ht0 : 0 < t) (htn : t ≤ n) (h2 : alter + n ≤ 121)
    (m : ℕ) (hm : m < n) :
    (berechne_reserve alter n t sex zins zw st).reserve.getD m 0
      = (nAe_x_skalar (alter + m) (n - m) sex zins st
          + nE_x_skalar (alter + m) (n - m) sex zins st)
        - ((nAe_x_skalar alter n sex zins st + nE_x_skalar alter n sex zins st)
            / (ae_xn_verlauf_vec alter t sex zins zw st).getD 0 0)
          * (if m < t then (ae_xn_verlauf_vec alter t sex zins zw st).getD m 0
             else 0) := by
  have hT : ∀ k, k < n →
      (nAe_x_verlauf_vec alter n sex zins st).getD k 0
        = nAe_x_skalar (alter + k) (n - k) sex zins st := by
    intro k hk
    unfold nAe_x_verlauf_vec
    rw [if_neg (by simp [MAX_ALTER]; omega), getD_map_range _ _ hk]
  have hE : ∀ k, k < n →
      (nE_x_verlauf_vec alter n sex zins st).getD k 0
        = nE_x_skalar (alter + k) (n - k) sex zins st := by
    intro k hk
    unfold nE_x_verlauf_vec
    rw [if_neg (by simp [MAX_ALTER]; omega), getD_map_range _ _ hk]
  have hlen : (ae_xn_verlauf_vec alter t sex zins zw st).length = t :=
    ae_xn_verlauf_vec_laenge st alter t sex zins zw (by omega) (by omega)
  unfold berechne_reserve
  dsimp only
  rw [getD_map_range _ _ hm, hT m hm, hE m hm, hT 0 (by omega), hE 0 (by omega)]
  simp only [Nat.add_zero, Nat.sub_zero]
  rw [List.getD_append _ _ _ 0 (by omega)]
  by_cases hmt : m < t
  · rw [List.getD_append _ _ _ m (by omega), if_pos hmt]
  · rw [getD_append_replicate_zero _ _ _ (by omega), if_neg hmt]

/-- C6 witness: constant table, age 40, n = 3, t = 2, offset m = 2 (past the
premium duration, so the annuity factor is 0). -/
theorem reserve_projektion_zeuge :
    0 < 2 ∧ 2 ≤ 3 ∧ 40 + 3 ≤ 121 ∧ 2 < 3
    ∧ (berechne_reserve 40 3 2 "M" (7 / 400) 1 konstTafel).reserve.getD 2 0
        = (nAe_x_skalar (40 + 2) (3 - 2) "M" (7 / 400) konstTafel
            + nE_x_skalar (40 + 2) (3 - 2) "M" (7 / 400) konstTafel)
          - ((nAe_x_skalar 40 3 "M" (7 / 400) konstTafel
              + nE_x_skalar 40 3 "M" (7 / 400) konstTafel)
              / (ae_xn_verlauf_vec 40 2 "M" (7 / 400) 1 konstTafel).getD 0 0)
            * (if 2 < 2 then (ae_xn_verlauf_vec 40 2 "M" (7 / 400) 1 konstTafel).getD 2 0
               else 0) :=
  ⟨by decide, by decide, by decide, by decide,
    reserve_projektion konstTafel 40 3 2 "M" (7 / 400) 1 (by decide) (by decide)
      (by decide) 2 (by decide)⟩

/-- C7: Point-query error contract of `Sterbetafel.qx`.  The query fails
with the out-of-range error exactly when the age lies outside
`[min_alter, max_alter]`; for every in-range age the query returns a value,
and any sex string that does not upper-case to the male category "M"
deterministically receives the female column. -/
theorem qx_punktabfrage_kontrakt (st : Sterbetafel) :
    (∀ (alter : ℕ) (sex : String),
        (∃ e, st.qx alter sex = .error e)
          ↔ (alter < st.min_alter ∨ st.max_alter < alter))
    ∧ (∀ (alter : ℕ) (sex : String),
        st.min_alter ≤ alter → alter ≤ st.max_alter →
          ∃ q, st.qx alter sex = .ok q)
    ∧ (∀ (alter : ℕ) (sex : String),
        st.min_alter ≤ alter → alter ≤ st.max_alter → pyUpper sex ≠ "M" →
          st.qx alter sex = .ok (st.spalteQy alter)) := by
  refine ⟨?_, ?_, ?_⟩
  · intro alter sex
    unfold Sterbetafel.qx
    by_cases h : alter < st.min_alter ∨ st.max_alter < alter
    · rw [if_pos h]
      exact ⟨fun _ => h, fun _ => ⟨_, rfl⟩⟩
    · rw [if_neg h]
      constructor
      · rintro ⟨e, he⟩
        exact absurd he (by simp)
      · intro hc
        exact absurd hc h
  · intro alter sex h1 h2
    unfold Sterbetafel.qx
    rw [if_neg (by omega)]
    exact ⟨_, rfl⟩
  · intro alter sex h1 h2 hs
    unfold Sterbetafel.qx Sterbetafel.qxWert
    rw [if_neg (by omega), if_neg hs]

/-- C7 witness: the unrecognized sex string "x" at in-range age 40 yields the
female column on the constant table. -/
theorem qx_punktabfrage_zeuge :
    konstTafel.min_alter ≤ 40 ∧ 40 ≤ konstTafel.max_alter ∧ pyUpper "x" ≠ "M"
    ∧ konstTafel.qx 40 "x" = .ok (konstTafel.spalteQy 40) :=
  ⟨by decide, by decide, by decide,
    (qx_punktabfrage_kontrakt konstTafel).2.2 40 "x" (by decide) (by decide)
      (by decide)⟩

/-- C9: Division safety of `ag_k`.  Under the precondition i ≥ 0 the
function is total (always returns a value: the division by `1 - v` is only
reached for i > 0, where `v = 1/(1+i) < 1`, and i = 0 takes the early
return), but for g = 1, k = 1, i = -1/2 < 0 the discount factor is 1.0, the
divisor `1 - v` is 0, and evaluation fails with the division error. -/
theorem ag_k_divisionssicherheit :
    (∀ (g k : ℕ) (zins : ℚ), 0 ≤ zins → ∃ x, ag_k g zins k = .ok x)
    ∧ ag_k 1 (-(1 / 2)) 1 = .error "ZeroDivisionError" := by
  constructor
  · intro g k zins hz
    unfold ag_k
    by_cases hk : k = 0 ∨ g = 0
    · rw [if_pos hk]
      exact ⟨0, rfl⟩
    · rw [if_neg hk]
      by_cases hz0 : zins = 0
      · rw [if_pos hz0]
        exact ⟨(g : ℚ), rfl⟩
      · rw [if_neg hz0]
        have hzpos : 0 < zins := lt_of_le_of_ne hz (Ne.symm hz0)
        obtain ⟨a, ha⟩ : ∃ a, abzugsgliedE k zins = .ok a := by
          unfold abzugsgliedE
          by_cases hk1 : k = 0 ∨ k = 1
          · rw [if_pos hk1]
            exact ⟨0, rfl⟩
          · rw [if_neg hk1]
            by_cases hk2 : ¬(k = 1 ∨ k = 2 ∨ k = 4 ∨ k = 12)
            · rw [if_pos hk2]
              exact ⟨0, rfl⟩
            · rw [if_neg hk2]
              have hany : ((List.range k).any
                  (fun w => decide (1 + ((w : ℚ) / (k : ℚ)) * zins = 0))) = false := by
                rw [List.any_eq_false]
                intro w _
                simp only [decide_eq_true_eq]
                have hge : (0 : ℚ) ≤ ((w : ℚ) / (k : ℚ)) * zins :=
                  mul_nonneg (div_nonneg (Nat.cast_nonneg w) (Nat.cast_nonneg k)) hz
                intro hc
                nlinarith
              rw [if_neg (by simp [hany])]
              exact ⟨_, rfl⟩
        rw [ha]
        dsimp only
        have hne : ¬(1 - diskont zins = 0) := by
          unfold diskont
          rw [if_pos hzpos]
          have h1z : (0 : ℚ) < 1 + zins := by linarith
          have hlt : 1 / (1 + zins) < 1 := by
            rw [div_lt_one h1z]
            linarith
          intro hc
          have h1 : (1 : ℚ) / (1 + zins) = 1 := by linarith
          rw [h1] at hlt
          exact lt_irrefl 1 hlt
        rw [if_neg hne]
        exact ⟨_, rfl⟩
  · unfold ag_k
    rw [if_neg (by norm_num), if_neg (by norm_num), abzugsgliedE_eins]
    dsimp only
    rw [if_pos (by norm_num [diskont])]

/-- C9 witness: totality at the positive rate 0.0175 with g = 10, k = 4. -/
theorem ag_k_divisionssicherheit_zeuge :
    (0 : ℚ) ≤ 7 / 400 ∧ ∃ x, ag_k 10 (7 / 400) 4 = .ok x :=
  ⟨by norm_num, ag_k_divisionssicherheit.1 10 4 (7 / 400) (by norm_num)⟩
